import Mathlib

/-!
Shallow embedding of `src/caffe/layers/inner_product_layer.cpp`
(InnerProductLayer: SetUp, Forward_cpu, Backward_cpu and the two
normalize_weights overloads), with the floating-point scalar type `Dtype`
idealised as the real numbers.

Buffers are modelled as total functions from flat indices to reals, in the
row-major layout the source uses.  The dense linear-algebra primitives
(caffe_cpu_gemm, caffe_cpu_gemv, caffe_cpu_norm2, caffe_scal) are external
library calls in the source; they are embedded here by their documented
BLAS semantics on row-major flat buffers, including their strides and the
fact that they leave every index outside the written region untouched.
-/

namespace caffe

/-- A Blob mirrors `caffe::Blob<Dtype>`: four dimensions plus a `data` and a
`diff` view over a flat row-major buffer. -/
structure Blob where
  num : ℕ
  channels : ℕ
  height : ℕ
  width : ℕ
  data : ℕ → ℝ
  diff : ℕ → ℝ

/-- Blob::count() : total number of elements. -/
def Blob.count (b : Blob) : ℕ := b.num * b.channels * b.height * b.width

/-- Blob::offset(n, c, h, w) = ((n * channels + c) * height + h) * width + w. -/
def Blob.offset (b : Blob) (n c h w : ℕ) : ℕ :=
  ((n * b.channels + c) * b.height + h) * b.width + w

/-- The default Blob used to model an out-of-range `blobs_[i]` access. -/
def Blob.dflt : Blob :=
  { num := 0, channels := 0, height := 0, width := 0
    data := fun _ => 0, diff := fun _ => 0 }

/-- The state of an `InnerProductLayer<Dtype>`: the dimensions `M_`, `K_`,
`N_`, the `bias_term_` flag, the parameter store `blobs_` (index 0 the
weight, index 1 the optional bias) and the `bias_multiplier_` buffer
(its byte size divided by `sizeof(Dtype)`, together with its contents). -/
structure InnerProductLayer where
  M : ℕ
  K : ℕ
  N : ℕ
  bias_term : Bool
  blobs : List Blob
  bias_multiplier : Option (ℕ × (ℕ → ℝ))

/-- Access `blobs_[i]` (out-of-range reads give the default Blob). -/
def InnerProductLayer.blobAt (L : InnerProductLayer) (i : ℕ) : Blob :=
  L.blobs.getD i Blob.dflt

/-- The data pointer of `bias_multiplier_` (absent multiplier reads 0). -/
def InnerProductLayer.biasMult (L : InnerProductLayer) : ℕ → ℝ :=
  (L.bias_multiplier.getD (0, fun _ => 0)).2

/-- Row-major read of operand A of a GEMM whose result is MxN with inner
dimension K: with `transA = false` A is stored MxK, otherwise KxM and is
used transposed. -/
def gemmOpA (transA : Bool) (M K : ℕ) (A : ℕ → ℝ) (i k : ℕ) : ℝ :=
  if transA then A (k * M + i) else A (i * K + k)

/-- Row-major read of operand B of a GEMM whose result is MxN with inner
dimension K: with `transB = false` B is stored KxN, otherwise NxK and is
used transposed. -/
def gemmOpB (transB : Bool) (K N : ℕ) (B : ℕ → ℝ) (k j : ℕ) : ℝ :=
  if transB then B (j * K + k) else B (k * N + j)

/-- caffe_cpu_gemm(TransA, TransB, M, N, K, alpha, A, B, beta, C):
C := alpha * op(A) * op(B) + beta * C, written row-major into the MxN
region of C; indices at or beyond M*N are untouched. -/
def caffe_cpu_gemm (transA transB : Bool) (M N K : ℕ) (alpha : ℝ)
    (A B : ℕ → ℝ) (beta : ℝ) (C : ℕ → ℝ) : ℕ → ℝ :=
  fun p =>
    if p < M * N then
      alpha * (∑ k in Finset.range K,
        gemmOpA transA M K A (p / N) k * gemmOpB transB K N B k (p % N))
        + beta * C p
    else C p

/-- caffe_cpu_gemv(TransA, M, N, alpha, A, x, beta, y) with A stored MxN
row-major: y := alpha * op(A) * x + beta * y, where op(A) is A (result
length M) when `transA = false` and A transposed (result length N) when
`transA = true`; indices beyond the result length are untouched. -/
def caffe_cpu_gemv (transA : Bool) (M N : ℕ) (alpha : ℝ)
    (A x : ℕ → ℝ) (beta : ℝ) (y : ℕ → ℝ) : ℕ → ℝ :=
  fun p =>
    if transA then
      if p < N then
        alpha * (∑ i in Finset.range M, A (i * N + p) * x i) + beta * y p
      else y p
    else
      if p < M then
        alpha * (∑ j in Finset.range N, A (p * N + j) * x j) + beta * y p
      else y p

/-- The bias-multiplier fill loop of SetUp:
`for (int i = 0; i < M; ++i) bias_multiplier_data[i] = 1.;`. -/
def biasMultFill : ℕ → (ℕ → ℝ) → (ℕ → ℝ)
  | 0, a => a
  | i + 1, a => Function.update (biasMultFill i a) i 1

/-- InnerProductLayer::SetUp.  A filler strategy (`Filler::Fill`) is an
external collaborator; it is abstracted as a function from the freshly
allocated blob to the data it writes.  The newly allocated SyncedMemory
behind a blob or the bias multiplier starts zeroed.  Returns the updated
layer together with the reshaped top blob. -/
def SetUp (L : InnerProductLayer) (num_output : ℕ) (bias_term : Bool)
    (weight_filler bias_filler : Blob → ℕ → ℝ)
    (bottom top : Blob) : InnerProductLayer × Blob :=
  let M := bottom.num
  let K := bottom.count / bottom.num
  let N := num_output
  let top1 : Blob :=
    { top with num := bottom.num, channels := num_output, height := 1, width := 1 }
  let L1 : InnerProductLayer :=
    { L with M := M, K := K, N := N, bias_term := bias_term }
  let L2 : InnerProductLayer :=
    if 0 < L1.blobs.length then
      -- LOG(INFO) << "Skipping parameter initialization";
      L1
    else
      let w0 : Blob :=
        { num := 1, channels := 1, height := N, width := K
          data := fun _ => 0, diff := fun _ => 0 }
      let w1 : Blob := { w0 with data := weight_filler w0 }
      if bias_term then
        let b0 : Blob :=
          { num := 1, channels := 1, height := 1, width := N
            data := fun _ => 0, diff := fun _ => 0 }
        let b1 : Blob := { b0 with data := bias_filler b0 }
        { L1 with blobs := [w1, b1] }
      else
        { L1 with blobs := [w1] }
  if bias_term then
    ({ L2 with bias_multiplier := some (M, biasMultFill M (fun _ => 0)) }, top1)
  else
    (L2, top1)

/-- InnerProductLayer::Forward_cpu.  Returns the updated top blob and the
scalar return value. -/
def Forward_cpu (L : InnerProductLayer) (bottom top : Blob) : Blob × ℝ :=
  let bottom_data := bottom.data
  let weight := (L.blobAt 0).data
  let t1 := caffe_cpu_gemm false true L.M L.N L.K 1 bottom_data weight 0 top.data
  let t2 :=
    if L.bias_term then
      caffe_cpu_gemm false false L.M L.N 1 1 L.biasMult (L.blobAt 1).data 1 t1
    else t1
  ({ top with data := t2 }, 0)

/-- InnerProductLayer::Backward_cpu.  Returns the updated layer (its blob
diff views) and the updated bottom blob. -/
def Backward_cpu (L : InnerProductLayer) (top : Blob) (propagate_down : Bool)
    (bottom : Blob) : InnerProductLayer × Blob :=
  let top_diff := top.diff
  let bottom_data := bottom.data
  -- Gradient with respect to weight
  let w := L.blobAt 0
  let w1 : Blob :=
    { w with diff :=
        caffe_cpu_gemm true false L.N L.K L.M 1 top_diff bottom_data 0 w.diff }
  let L1 : InnerProductLayer := { L with blobs := L.blobs.set 0 w1 }
  let L2 : InnerProductLayer :=
    if L.bias_term then
      -- Gradient with respect to bias
      let b := L1.blobAt 1
      let b1 : Blob :=
        { b with diff := caffe_cpu_gemv true L.M L.N 1 top_diff L.biasMult 0 b.diff }
      { L1 with blobs := L1.blobs.set 1 b1 }
    else L1
  let bottom1 : Blob :=
    if propagate_down then
      -- Gradient with respect to bottom data
      { bottom with diff :=
          (caffe_cpu_gemm false false L.M L.K L.N 1 top_diff (L.blobAt 0).data 0
            bottom.diff) }
    else bottom
  (L2, bottom1)

/-- The literal `Dtype(1e-7)` guard used by both normalize_weights
overloads. -/
noncomputable def epsND : ℝ := 1 / 10 ^ 7

/-- The set of flat indices a strided BLAS level-1 call on `M` elements
starting at `ptr` with increment `inc` touches. -/
def strideIdx (ptr inc M : ℕ) : Finset ℕ :=
  (Finset.range M).image (fun j => ptr + j * inc)

/-- caffe_cpu_norm2(M, x + ptr, inc): the Euclidean norm of the `M`
elements at `ptr`, `ptr + inc`, ... of the buffer `x`. -/
noncomputable def caffe_cpu_norm2 (M ptr inc : ℕ) (x : ℕ → ℝ) : ℝ :=
  Real.sqrt (∑ j in Finset.range M, x (ptr + j * inc) ^ 2)

/-- caffe_scal(M, alpha, x + ptr, inc): multiply the `M` elements at
`ptr`, `ptr + inc`, ... of the buffer `x` by `alpha`; every other index is
untouched. -/
def caffe_scal (M : ℕ) (alpha : ℝ) (ptr inc : ℕ) (x : ℕ → ℝ) : ℕ → ℝ :=
  fun p => if p ∈ strideIdx ptr inc M then alpha * x p else x p

/-- The global execution-mode selector `Caffe::mode()` (`Caffe::Brew`).
Modelled from the spec: the selector designates the CPU backend, the
accelerator (GPU) backend, or an unrecognized backend value, which the
switch statements of both normalize_weights overloads treat as fatal. -/
inductive CaffeBrew where
  | CPU : CaffeBrew
  | GPU : CaffeBrew
  | UNKNOWN : CaffeBrew
deriving DecidableEq

/-- Source local `M` of normalize_weights: `this->blobs_[0]->height()`. -/
def normM (b : Blob) : ℕ := b.height

/-- Source local `N` of normalize_weights: `this->blobs_[0]->width()`. -/
def normN (b : Blob) : ℕ := b.width

/-- Source local `off` of normalize_weights:
`this->blobs_[0]->offset(0, 0, 0, 1)`. -/
def normOff (b : Blob) : ℕ := b.offset 0 0 0 1

/-- One iteration of the max-norm loop at pointer `ptr`: compute the norm
of `Mh` elements with stride `Nw`; if it exceeds `mnorm`, scale them by
`mnorm / (nrm + 1e-7)`. -/
noncomputable def normStepA (mnorm : ℝ) (Mh Nw ptr : ℕ) (w : ℕ → ℝ) : ℕ → ℝ :=
  let nrm := caffe_cpu_norm2 Mh ptr Nw w
  if mnorm < nrm then caffe_scal Mh (mnorm / (nrm + epsND)) ptr Nw w else w

/-- The `for (int i = 0; i < N; ++i)` loop of normalize_weights(mnorm):
`n` iterations left, current pointer `ptr`, pointer advanced by `off`
after each iteration. -/
noncomputable def normLoopA (mnorm : ℝ) (Mh Nw off : ℕ) : ℕ → ℕ → (ℕ → ℝ) → (ℕ → ℝ)
  | 0, _, w => w
  | n + 1, ptr, w => normLoopA mnorm Mh Nw off n (ptr + off) (normStepA mnorm Mh Nw ptr w)

/-- One iteration of the norm-band loop at pointer `ptr`: compute the norm
of `Mh` elements with stride `Nw`; if it lies outside
[`min_norm`, `max_norm`], scale them by `target_norm / (nrm + 1e-7)`. -/
noncomputable def normStepB (min_norm max_norm target_norm : ℝ) (Mh Nw ptr : ℕ)
    (w : ℕ → ℝ) : ℕ → ℝ :=
  let nrm := caffe_cpu_norm2 Mh ptr Nw w
  if max_norm < nrm ∨ nrm < min_norm then
    caffe_scal Mh (target_norm / (nrm + epsND)) ptr Nw w
  else w

/-- The `for (int i = 0; i < N; ++i)` loop of
normalize_weights(min_norm, max_norm, target_norm). -/
noncomputable def normLoopB (min_norm max_norm target_norm : ℝ) (Mh Nw off : ℕ) :
    ℕ → ℕ → (ℕ → ℝ) → (ℕ → ℝ)
  | 0, _, w => w
  | n + 1, ptr, w =>
      normLoopB min_norm max_norm target_norm Mh Nw off n (ptr + off)
        (normStepB min_norm max_norm target_norm Mh Nw ptr w)

/-- The data buffer normalize_weights(mnorm) leaves in `blobs_[0]`:
the loop runs `N` times over groups of `M` elements with stride `N`,
starting at pointer 0 and advancing by `off` each iteration, where `M`,
`N` and `off` are read from the weight blob. -/
noncomputable def normalizeA_data (mnorm : ℝ) (b : Blob) : ℕ → ℝ :=
  normLoopA mnorm (normM b) (normN b) (normOff b) (normN b) 0 b.data

/-- The data buffer normalize_weights(min_norm, max_norm, target_norm)
leaves in `blobs_[0]`. -/
noncomputable def normalizeB_data (min_norm max_norm target_norm : ℝ) (b : Blob) : ℕ → ℝ :=
  normLoopB min_norm max_norm target_norm (normM b) (normN b) (normOff b)
    (normN b) 0 b.data

/-- The layer update shared by the CPU and GPU cases of
normalize_weights(mnorm): both branches run the same loop, because the
accelerator primitives caffe_gpu_norm2 and caffe_gpu_scal have the same
numerics as their CPU counterparts (spec section 6). -/
noncomputable def normalizeA_update (L : InnerProductLayer) (mnorm : ℝ) : InnerProductLayer :=
  let b := L.blobAt 0
  { L with blobs := L.blobs.set 0 ({ b with data := normalizeA_data mnorm b }) }

/-- The layer update shared by the CPU and GPU cases of
normalize_weights(min_norm, max_norm, target_norm). -/
noncomputable def normalizeB_update (L : InnerProductLayer)
    (min_norm max_norm target_norm : ℝ) : InnerProductLayer :=
  let b := L.blobAt 0
  { L with blobs :=
      L.blobs.set 0 ({ b with data := normalizeB_data min_norm max_norm target_norm b }) }

/-- InnerProductLayer::normalize_weights(Dtype mnorm).  The switch on
`Caffe::mode()` dispatches to the CPU or GPU primitives; the default case
is `LOG(FATAL)`, which terminates the process before any weight is
touched — modelled as `none`. -/
noncomputable def normalize_weights_mnorm (mode : CaffeBrew) (L : InnerProductLayer)
    (mnorm : ℝ) : Option InnerProductLayer :=
  match mode with
  | CaffeBrew.CPU => some (normalizeA_update L mnorm)
  | CaffeBrew.GPU => some (normalizeA_update L mnorm)
  | CaffeBrew.UNKNOWN => none   -- LOG(FATAL) << "Unknown caffe mode."

/-- InnerProductLayer::normalize_weights(Dtype min_norm, Dtype max_norm,
Dtype target_norm), with the same mode dispatch. -/
noncomputable def normalize_weights_band (mode : CaffeBrew) (L : InnerProductLayer)
    (min_norm max_norm target_norm : ℝ) : Option InnerProductLayer :=
  match mode with
  | CaffeBrew.CPU => some (normalizeB_update L min_norm max_norm target_norm)
  | CaffeBrew.GPU => some (normalizeB_update L min_norm max_norm target_norm)
  | CaffeBrew.UNKNOWN => none   -- LOG(FATAL) << "Unknown caffe mode."

/- ------------------------------------------------------------------ -/
/- Helper lemmas on row-major index arithmetic.                        -/
/- ------------------------------------------------------------------ -/

lemma rowmajor_lt {i j M N : ℕ} (hi : i < M) (hj : j < N) :
    i * N + j < M * N := by
  have h1 : i * N + j < (i + 1) * N := by
    have : (i + 1) * N = i * N + N := by ring
    omega
  have h2 : (i + 1) * N ≤ M * N := Nat.mul_le_mul_right N hi
  omega

lemma rowmajor_div {i j N : ℕ} (hj : j < N) : (i * N + j) / N = i := by
  have hN : 0 < N := Nat.lt_of_le_of_lt (Nat.zero_le j) hj
  rw [add_comm, Nat.add_mul_div_right j i hN, Nat.div_eq_of_lt hj, Nat.zero_add]

lemma rowmajor_mod {i j N : ℕ} (hj : j < N) : (i * N + j) % N = j := by
  rw [add_comm, Nat.add_mul_mod_self_right, Nat.mod_eq_of_lt hj]

/- ------------------------------------------------------------------ -/
/- Claim C1: Forward_cpu.                                              -/
/- ------------------------------------------------------------------ -/

/-- C1: for a layer with dimensions M, K, N, Forward_cpu writes entry
(i, j) of the output data view to the (MxK)x(KxN) product of the input
with the transposed weight, plus, when bias_term is enabled, the bias
broadcast bias_multiplier(i) * bias(j) added on top of that product; and
the scalar return value is 0. -/
theorem forward_cpu_is_input_times_weightT (L : InnerProductLayer)
    (bottom top : Blob) (i j : ℕ) (hi : i < L.M) (hj : j < L.N) :
    ((Forward_cpu L bottom top).1.data (i * L.N + j) =
      (∑ k in Finset.range L.K,
        bottom.data (i * L.K + k) * (L.blobAt 0).data (j * L.K + k))
        + (if L.bias_term then L.biasMult i * (L.blobAt 1).data j else 0))
    ∧ (Forward_cpu L bottom top).2 = 0 := by
  have hij : i * L.N + j < L.M * L.N := rowmajor_lt hi hj
  have hdiv : (i * L.N + j) / L.N = i := rowmajor_div hj
  have hmod : (i * L.N + j) % L.N = j := rowmajor_mod hj
  refine ⟨?_, rfl⟩
  cases hb : L.bias_term with
  | false =>
    simp [Forward_cpu, caffe_cpu_gemm, hb, hij, hdiv, hmod, gemmOpA, gemmOpB]
  | true =>
    simp [Forward_cpu, caffe_cpu_gemm, hb, hij, hdiv, hmod, gemmOpA, gemmOpB,
      Finset.sum_range_one]
    ring

/-- Witness for C1 at a concrete layer: M = 1, K = 2, N = 1, bias
enabled, weight row (5, 7), bias 11, multiplier 1, input row (2, 3);
the output entry is 2*5 + 3*7 + 11. -/
theorem forward_cpu_is_input_times_weightT_witness :
    ((Forward_cpu
        { M := 1, K := 2, N := 1, bias_term := true
          blobs := [{ num := 1, channels := 1, height := 1, width := 2
                      data := fun p => if p = 0 then 5 else 7
                      diff := fun _ => 0 },
                    { num := 1, channels := 1, height := 1, width := 1
                      data := fun _ => 11, diff := fun _ => 0 }]
          bias_multiplier := some (1, fun _ => 1) }
        { num := 1, channels := 2, height := 1, width := 1
          data := fun p => if p = 0 then 2 else 3, diff := fun _ => 0 }
        { num := 1, channels := 1, height := 1, width := 1
          data := fun _ => 0, diff := fun _ => 0 }).1.data (0 * 1 + 0) =
      (∑ k in Finset.range 2,
        (fun p => if p = 0 then (2 : ℝ) else 3) (0 * 2 + k) *
          (fun p => if p = 0 then (5 : ℝ) else 7) (0 * 2 + k))
        + (if true then 1 * 11 else 0))
    ∧ (0 : ℝ) = 0 := by
  have h := forward_cpu_is_input_times_weightT
    { M := 1, K := 2, N := 1, bias_term := true
      blobs := [{ num := 1, channels := 1, height := 1, width := 2
                  data := fun p => if p = 0 then 5 else 7
                  diff := fun _ => 0 },
                { num := 1, channels := 1, height := 1, width := 1
                  data := fun _ => 11, diff := fun _ => 0 }]
      bias_multiplier := some (1, fun _ => 1) }
    { num := 1, channels := 2, height := 1, width := 1
      data := fun p => if p = 0 then 2 else 3, diff := fun _ => 0 }
    { num := 1, channels := 1, height := 1, width := 1
      data := fun _ => 0, diff := fun _ => 0 }
    0 0 (by decide) (by decide)
  refine ⟨?_, rfl⟩
  have h1 := h.1
  simpa [InnerProductLayer.blobAt, InnerProductLayer.biasMult] using h1

/- ------------------------------------------------------------------ -/
/- List helper lemmas for the parameter store.                         -/
/- ------------------------------------------------------------------ -/

lemma getD_set_self {α : Type} (l : List α) (n : ℕ) (b d : α)
    (h : n < l.length) : (l.set n b).getD n d = b := by
  simp [List.getD, List.getElem?_set_self, h]

lemma getD_set_ne {α : Type} (l : List α) (m n : ℕ) (b d : α)
    (h : m ≠ n) : (l.set n b).getD m d = l.getD m d := by
  simp [List.getD, List.getElem?_set_ne (Ne.symm h)]

/- ------------------------------------------------------------------ -/
/- Claim C2: Backward_cpu parameter gradients.                         -/
/- ------------------------------------------------------------------ -/

/-- C2: on every Backward_cpu call — whatever the propagate_down flag —
the weight gradient buffer entry (n, k) is overwritten with the
(NxM)x(MxK) product (top gradient transposed times input), independently
of its previous contents; and when bias_term is enabled the bias gradient
entry n2 is likewise overwritten with the (NxM)x(Mx1) product of the top
gradient transposed with the bias multiplier. -/
lemma backward_blobAt0 (L : InnerProductLayer) (top bottom : Blob)
    (pd : Bool) (hw : 0 < L.blobs.length) :
    (Backward_cpu L top pd bottom).1.blobAt 0 =
      { L.blobAt 0 with diff :=
          (caffe_cpu_gemm true false L.N L.K L.M 1 top.diff bottom.data 0
            (L.blobAt 0).diff) } := by
  cases hb : L.bias_term with
  | false =>
    simp [Backward_cpu, hb, InnerProductLayer.blobAt, List.getD, hw,
      List.getElem?_set_eq_of_lt]
  | true =>
    simp [Backward_cpu, hb, InnerProductLayer.blobAt, List.getD, hw,
      List.getElem?_set_ne (show (1 : ℕ) ≠ 0 by decide),
      List.getElem?_set_eq_of_lt]

lemma backward_blobAt1 (L : InnerProductLayer) (top bottom : Blob)
    (pd : Bool) (hb : L.bias_term = true) (hlen : 1 < L.blobs.length) :
    (Backward_cpu L top pd bottom).1.blobAt 1 =
      { L.blobAt 1 with diff :=
          (caffe_cpu_gemv true L.M L.N 1 top.diff L.biasMult 0
            (L.blobAt 1).diff) } := by
  simp [Backward_cpu, hb, InnerProductLayer.blobAt, List.getD, hlen,
    List.getElem?_set_ne (show (0 : ℕ) ≠ 1 by decide),
    List.getElem?_set_eq_of_lt]

theorem backward_cpu_param_gradients (L : InnerProductLayer)
    (top bottom : Blob) (pd : Bool) (hw : 0 < L.blobs.length)
    (n k : ℕ) (hn : n < L.N) (hk : k < L.K) :
    (((Backward_cpu L top pd bottom).1.blobAt 0).diff (n * L.K + k) =
      ∑ m in Finset.range L.M,
        top.diff (m * L.N + n) * bottom.data (m * L.K + k))
    ∧ (L.bias_term = true → 1 < L.blobs.length → ∀ n2, n2 < L.N →
        ((Backward_cpu L top pd bottom).1.blobAt 1).diff n2 =
          ∑ m in Finset.range L.M, top.diff (m * L.N + n2) * L.biasMult m) := by
  have hnk : n * L.K + k < L.N * L.K := rowmajor_lt hn hk
  have hdiv : (n * L.K + k) / L.K = n := rowmajor_div hk
  have hmod : (n * L.K + k) % L.K = k := rowmajor_mod hk
  constructor
  · rw [backward_blobAt0 L top bottom pd hw]
    simp [caffe_cpu_gemm, hnk, hdiv, hmod, gemmOpA, gemmOpB]
  · intro hb hlen n2 hn2
    rw [backward_blobAt1 L top bottom pd hb hlen]
    simp [caffe_cpu_gemv, hn2]

/-- A concrete layer (M = K = N = 1, bias enabled) for the Backward
witnesses. -/
def cIPbw : InnerProductLayer :=
  { M := 1, K := 1, N := 1, bias_term := true
    blobs := [{ num := 1, channels := 1, height := 1, width := 1
                data := fun _ => 5, diff := fun _ => 9 },
              { num := 1, channels := 1, height := 1, width := 1
                data := fun _ => 11, diff := fun _ => 9 }]
    bias_multiplier := some (1, fun _ => 1) }

/-- A concrete top blob with gradient 2 for the Backward witnesses. -/
def cTopbw : Blob :=
  { num := 1, channels := 1, height := 1, width := 1
    data := fun _ => 0, diff := fun _ => 2 }

/-- A concrete bottom blob with data 3 for the Backward witnesses. -/
def cBotbw : Blob :=
  { num := 1, channels := 1, height := 1, width := 1
    data := fun _ => 3, diff := fun _ => 7 }

/-- Witness for C2 at the concrete layer cIPbw. -/
theorem backward_cpu_param_gradients_witness :
    (0 < cIPbw.blobs.length ∧ (0 : ℕ) < cIPbw.N ∧ (0 : ℕ) < cIPbw.K)
    ∧ ((((Backward_cpu cIPbw cTopbw false cBotbw).1.blobAt 0).diff
          (0 * cIPbw.K + 0) =
        ∑ m in Finset.range cIPbw.M,
          cTopbw.diff (m * cIPbw.N + 0) * cBotbw.data (m * cIPbw.K + 0))
      ∧ (cIPbw.bias_term = true → 1 < cIPbw.blobs.length →
          ∀ n2, n2 < cIPbw.N →
          ((Backward_cpu cIPbw cTopbw false cBotbw).1.blobAt 1).diff n2 =
            ∑ m in Finset.range cIPbw.M,
              cTopbw.diff (m * cIPbw.N + n2) * cIPbw.biasMult m)) :=
  ⟨⟨by decide, by decide, by decide⟩,
    backward_cpu_param_gradients cIPbw cTopbw cBotbw false (by decide)
      0 0 (by decide) (by decide)⟩

/- ------------------------------------------------------------------ -/
/- Claim C6: Backward_cpu bottom gradient and frame.                   -/
/- ------------------------------------------------------------------ -/

lemma blobs_set_proj_eq {α : Type} (f : Blob → α) (l : List Blob) (n : ℕ)
    (b : Blob) (hf : f b = f (l.getD n Blob.dflt)) (m : ℕ) :
    f ((l.set n b).getD m Blob.dflt) = f (l.getD m Blob.dflt) := by
  rw [List.getD_eq_getElem?_getD, List.getD_eq_getElem?_getD,
    List.getElem?_set]
  by_cases h : n = m
  · subst h
    by_cases hl : n < l.length
    · simp only [hl, if_true, Option.getD_some]
      rw [hf, List.getD_eq_getElem?_getD]
    · simp [hl, List.getElem?_eq_none (le_of_not_lt hl)]
  · simp [h]

/-- C6: Backward_cpu overwrites the input gradient with
top_gradient x weight — an (MxN)x(NxK) product — exactly when
propagate_down is true; with propagate_down false the bottom blob is
returned untouched; and in either case nothing is written except the
weight gradient, the bias gradient and the input gradient: the layer
dimensions, the bias_term flag, the bias multiplier, the store size, all
parameter data views, entries of the store beyond index 1, the bias blob
when bias_term is off, and the input data view are all unchanged. -/
theorem backward_cpu_bottom_gradient_and_frame (L : InnerProductLayer)
    (top bottom : Blob) :
    (∀ i k, i < L.M → k < L.K →
      ((Backward_cpu L top true bottom).2).diff (i * L.K + k) =
        ∑ n in Finset.range L.N,
          top.diff (i * L.N + n) * (L.blobAt 0).data (n * L.K + k))
    ∧ ((Backward_cpu L top false bottom).2 = bottom)
    ∧ (∀ pd : Bool,
        (Backward_cpu L top pd bottom).1.M = L.M ∧
        (Backward_cpu L top pd bottom).1.K = L.K ∧
        (Backward_cpu L top pd bottom).1.N = L.N ∧
        (Backward_cpu L top pd bottom).1.bias_term = L.bias_term ∧
        (Backward_cpu L top pd bottom).1.bias_multiplier = L.bias_multiplier ∧
        (Backward_cpu L top pd bottom).1.blobs.length = L.blobs.length ∧
        (Backward_cpu L top pd bottom).2.data = bottom.data ∧
        (∀ m, ((Backward_cpu L top pd bottom).1.blobAt m).data
            = (L.blobAt m).data) ∧
        (∀ m, 2 ≤ m →
          (Backward_cpu L top pd bottom).1.blobAt m = L.blobAt m) ∧
        (L.bias_term = false →
          (Backward_cpu L top pd bottom).1.blobAt 1 = L.blobAt 1)) := by
  refine ⟨?_, rfl, ?_⟩
  · intro i k hi hk
    have hik : i * L.K + k < L.M * L.K := rowmajor_lt hi hk
    have hdiv : (i * L.K + k) / L.K = i := rowmajor_div hk
    have hmod : (i * L.K + k) % L.K = k := rowmajor_mod hk
    simp [Backward_cpu, caffe_cpu_gemm, hik, hdiv, hmod, gemmOpA, gemmOpB]
  · intro pd
    refine ⟨?_, ?_, ?_, ?_, ?_, ?_, ?_, ?_, ?_, ?_⟩
    · cases hb : L.bias_term <;> simp [Backward_cpu, hb]
    · cases hb : L.bias_term <;> simp [Backward_cpu, hb]
    · cases hb : L.bias_term <;> simp [Backward_cpu, hb]
    · cases hb : L.bias_term <;> simp [Backward_cpu, hb]
    · cases hb : L.bias_term <;> simp [Backward_cpu, hb]
    · cases hb : L.bias_term <;> simp [Backward_cpu, hb]
    · cases pd <;> simp [Backward_cpu]
    · intro m
      cases hb : L.bias_term with
      | false =>
        simp only [Backward_cpu, hb, InnerProductLayer.blobAt,
          Bool.false_eq_true, if_false]
        exact blobs_set_proj_eq Blob.data L.blobs 0 _ (by rfl) m
      | true =>
        simp only [Backward_cpu, hb, InnerProductLayer.blobAt, if_true]
        exact (blobs_set_proj_eq Blob.data _ 1 _ (by rfl) m).trans
          (blobs_set_proj_eq Blob.data L.blobs 0 _ (by rfl) m)
    · intro m hm
      cases hb : L.bias_term with
      | false =>
        simp [Backward_cpu, hb, InnerProductLayer.blobAt, List.getD,
          List.getElem?_set_ne (show (0 : ℕ) ≠ m by omega)]
      | true =>
        simp [Backward_cpu, hb, InnerProductLayer.blobAt, List.getD,
          List.getElem?_set_ne (show (0 : ℕ) ≠ m by omega),
          List.getElem?_set_ne (show (1 : ℕ) ≠ m by omega)]
    · intro hb
      simp [Backward_cpu, hb, InnerProductLayer.blobAt, List.getD,
        List.getElem?_set_ne (show (0 : ℕ) ≠ 1 by decide)]

/-- Witness for C6 at the concrete layer cIPbw: discharges the index
bound hypotheses of the first conjunct and the flag hypothesis of the
last one. -/
theorem backward_cpu_bottom_gradient_and_frame_witness :
    (((Backward_cpu cIPbw cTopbw true cBotbw).2).diff (0 * cIPbw.K + 0) =
      ∑ n in Finset.range cIPbw.N,
        cTopbw.diff (0 * cIPbw.N + n) * (cIPbw.blobAt 0).data (n * cIPbw.K + 0))
    ∧ ((Backward_cpu cIPbw cTopbw false cBotbw).2 = cBotbw)
    ∧ ((Backward_cpu cIPbw cTopbw true cBotbw).1.bias_multiplier
        = cIPbw.bias_multiplier) :=
  ⟨(backward_cpu_bottom_gradient_and_frame cIPbw cTopbw cBotbw).1 0 0
      (by decide) (by decide),
    (backward_cpu_bottom_gradient_and_frame cIPbw cTopbw cBotbw).2.1,
    ((backward_cpu_bottom_gradient_and_frame cIPbw cTopbw cBotbw).2.2
      true).2.2.2.2.1⟩

/- ------------------------------------------------------------------ -/
/- Claims C7, C8, C10: SetUp and the parameter store.                  -/
/- ------------------------------------------------------------------ -/

lemma biasMultFill_eq_one (M : ℕ) (a : ℕ → ℝ) :
    ∀ i, i < M → biasMultFill M a i = 1 := by
  induction M with
  | zero => intro i h; omega
  | succ M ih =>
    intro i h
    by_cases hiM : i = M
    · subst hiM; simp [biasMultFill]
    · have hi : i < M := by omega
      simp only [biasMultFill]
      rw [Function.update_noteq hiM]
      exact ih i hi

/-- C7: after SetUp on a layer whose parameter store is empty, the store
holds exactly one tensor (the weight, allocated (1, 1, N, K)) without
bias and exactly two (weight plus a bias allocated (1, 1, 1, N)) with
bias, together with a bias multiplier of length M = bottom.num whose
entries are all 1; and no operation other than SetUp changes the store
size: Backward_cpu and both normalize_weights overloads (when they
return) preserve it, and Forward_cpu does not touch the layer state at
all (it returns only the top blob and the scalar). -/
theorem setup_store_size_and_contents (L : InnerProductLayer)
    (num_output : ℕ) (bt : Bool) (wf bf : Blob → ℕ → ℝ)
    (bottom top : Blob) (hempty : L.blobs = []) :
    ((SetUp L num_output bt wf bf bottom top).1.blobs.length
        = if bt then 2 else 1)
    ∧ (((SetUp L num_output bt wf bf bottom top).1.blobAt 0).num = 1
        ∧ ((SetUp L num_output bt wf bf bottom top).1.blobAt 0).channels = 1
        ∧ ((SetUp L num_output bt wf bf bottom top).1.blobAt 0).height = num_output
        ∧ ((SetUp L num_output bt wf bf bottom top).1.blobAt 0).width
            = bottom.count / bottom.num)
    ∧ (bt = true →
        ((SetUp L num_output bt wf bf bottom top).1.blobAt 1).num = 1
        ∧ ((SetUp L num_output bt wf bf bottom top).1.blobAt 1).channels = 1
        ∧ ((SetUp L num_output bt wf bf bottom top).1.blobAt 1).height = 1
        ∧ ((SetUp L num_output bt wf bf bottom top).1.blobAt 1).width = num_output
        ∧ (SetUp L num_output bt wf bf bottom top).1.bias_multiplier
            = some (bottom.num, biasMultFill bottom.num (fun _ => 0))
        ∧ (∀ i, i < bottom.num → biasMultFill bottom.num (fun _ => 0) i = 1))
    ∧ (∀ (L2 : InnerProductLayer) (top2 bottom2 : Blob) (pd : Bool),
        (Backward_cpu L2 top2 pd bottom2).1.blobs.length = L2.blobs.length)
    ∧ (∀ (mode : CaffeBrew) (L2 L3 : InnerProductLayer) (mn : ℝ),
        normalize_weights_mnorm mode L2 mn = some L3 →
          L3.blobs.length = L2.blobs.length)
    ∧ (∀ (mode : CaffeBrew) (L2 L3 : InnerProductLayer) (mn mx tg : ℝ),
        normalize_weights_band mode L2 mn mx tg = some L3 →
          L3.blobs.length = L2.blobs.length) := by
  refine ⟨?_, ?_, ?_, ?_, ?_, ?_⟩
  · cases hb : bt <;>
      simp [SetUp, hempty, hb, InnerProductLayer.blobAt]
  · cases hb : bt <;>
      simp [SetUp, hempty, hb, InnerProductLayer.blobAt]
  · intro hb
    refine ⟨?_, ?_, ?_, ?_, ?_, biasMultFill_eq_one bottom.num _⟩ <;>
      simp [SetUp, hempty, hb, InnerProductLayer.blobAt]
  · intro L2 top2 bottom2 pd
    cases hb : L2.bias_term <;> simp [Backward_cpu, hb]
  · intro mode L2 L3 mn h
    cases mode <;> simp only [normalize_weights_mnorm, Option.some_inj,
      reduceCtorEq] at h <;> rw [← h] <;> simp [normalizeA_update]
  · intro mode L2 L3 mn mx tg h
    cases mode <;> simp only [normalize_weights_band, Option.some_inj,
      reduceCtorEq] at h <;> rw [← h] <;> simp [normalizeB_update]

/-- An empty-store layer for the SetUp witnesses. -/
def cIPempty : InnerProductLayer :=
  { M := 0, K := 0, N := 0, bias_term := false, blobs := []
    bias_multiplier := none }

/-- A concrete bottom blob of shape (2, 5, 1, 1) for the SetUp
witnesses: M = 2, K = 5. -/
def cBotsu : Blob :=
  { num := 2, channels := 5, height := 1, width := 1
    data := fun _ => 4, diff := fun _ => 0 }

/-- A concrete top blob for the SetUp witnesses. -/
def cTopsu : Blob :=
  { num := 1, channels := 1, height := 1, width := 1
    data := fun _ => 0, diff := fun _ => 0 }

/-- Witness for C7: SetUp with bias on an empty store, N = 3, bottom of
shape (2, 5, 1, 1). -/
theorem setup_store_size_and_contents_witness :
    cIPempty.blobs = []
    ∧ ((SetUp cIPempty 3 true (fun _ _ => 0) (fun _ _ => 0)
          cBotsu cTopsu).1.blobs.length = if true then 2 else 1) :=
  ⟨rfl,
    (setup_store_size_and_contents cIPempty 3 true (fun _ _ => 0)
      (fun _ _ => 0) cBotsu cTopsu rfl).1⟩

/-- C8: SetUp on a layer whose parameter store is non-empty performs no
allocation and no initializer invocation: the store, including every
tensor and its contents, is exactly the one from before the call. -/
theorem setup_nonempty_preserves_params (L : InnerProductLayer)
    (num_output : ℕ) (bt : Bool) (wf bf : Blob → ℕ → ℝ)
    (bottom top : Blob) (hne : L.blobs ≠ []) :
    (SetUp L num_output bt wf bf bottom top).1.blobs = L.blobs := by
  cases hb : bt <;>
    simp [SetUp, hb, List.length_pos.mpr hne]

/-- Witness for C8: SetUp on the populated layer cIPbw leaves its store
untouched. -/
theorem setup_nonempty_preserves_params_witness :
    cIPbw.blobs ≠ []
    ∧ (SetUp cIPbw 3 true (fun _ _ => 0) (fun _ _ => 0)
        cBotsu cTopsu).1.blobs = cIPbw.blobs :=
  ⟨by simp [cIPbw],
    setup_nonempty_preserves_params cIPbw 3 true (fun _ _ => 0)
      (fun _ _ => 0) cBotsu cTopsu (by simp [cIPbw])⟩

/-- C10: with bias_term true, every SetUp call installs a fresh bias
multiplier of length M = bottom.num with every entry 1 — with no
hypothesis on the parameter store, so in particular also on the path
that skips parameter allocation because the store is populated. -/
theorem setup_bias_multiplier_refilled (L : InnerProductLayer)
    (num_output : ℕ) (wf bf : Blob → ℕ → ℝ) (bottom top : Blob) :
    (SetUp L num_output true wf bf bottom top).1.bias_multiplier
        = some (bottom.num, biasMultFill bottom.num (fun _ => 0))
    ∧ (∀ i, i < bottom.num →
        biasMultFill bottom.num (fun _ => 0) i = 1) := by
  refine ⟨?_, biasMultFill_eq_one bottom.num _⟩
  by_cases hl : 0 < L.blobs.length <;> simp [SetUp, hl]

/-- Witness for C10 on the populated layer cIPbw (the skip path) with
M = 2: both multiplier entries are 1. -/
theorem setup_bias_multiplier_refilled_witness :
    ((SetUp cIPbw 3 true (fun _ _ => 0) (fun _ _ => 0)
        cBotsu cTopsu).1.bias_multiplier
      = some (cBotsu.num, biasMultFill cBotsu.num (fun _ => 0)))
    ∧ ((0 : ℕ) < cBotsu.num
        ∧ biasMultFill cBotsu.num (fun _ => 0) 0 = 1) :=
  ⟨(setup_bias_multiplier_refilled cIPbw 3 (fun _ _ => 0) (fun _ _ => 0)
      cBotsu cTopsu).1,
    by decide,
    (setup_bias_multiplier_refilled cIPbw 3 (fun _ _ => 0) (fun _ _ => 0)
      cBotsu cTopsu).2 0 (by decide)⟩

/- ------------------------------------------------------------------ -/
/- Claim C9: normalize_weights mode dispatch.                          -/
/- ------------------------------------------------------------------ -/

/-- C9: both normalize_weights overloads terminate fatally (no weight
mutation, no normal return — modelled as `none`) exactly when the global
execution mode is neither CPU nor GPU; under either recognized mode they
return normally. -/
theorem normalize_weights_mode_dispatch (mode : CaffeBrew)
    (L : InnerProductLayer) (mn mini maxi tgt : ℝ) :
    (normalize_weights_mnorm mode L mn = none
      ↔ (mode ≠ CaffeBrew.CPU ∧ mode ≠ CaffeBrew.GPU))
    ∧ (normalize_weights_band mode L mini maxi tgt = none
      ↔ (mode ≠ CaffeBrew.CPU ∧ mode ≠ CaffeBrew.GPU)) := by
  cases mode <;>
    simp [normalize_weights_mnorm, normalize_weights_band]

/- ------------------------------------------------------------------ -/
/- Stride and norm helper lemmas for normalize_weights.                -/
/- ------------------------------------------------------------------ -/

lemma normOff_eq_one (b : Blob) : normOff b = 1 := by
  simp [normOff, Blob.offset]

lemma mem_strideIdx {ptr inc M p : ℕ} :
    p ∈ strideIdx ptr inc M ↔ ∃ j, j < M ∧ ptr + j * inc = p := by
  simp [strideIdx]

lemma self_mem_strideIdx {ptr inc M j : ℕ} (hj : j < M) :
    ptr + j * inc ∈ strideIdx ptr inc M :=
  mem_strideIdx.mpr ⟨j, hj, rfl⟩

lemma strideIdx_disjoint {i i2 Nw Mh p : ℕ} (hi : i < Nw) (hi2 : i2 < Nw)
    (hne : i ≠ i2) (hp : p ∈ strideIdx i Nw Mh) :
    p ∉ strideIdx i2 Nw Mh := by
  intro hp2
  obtain ⟨j, _, hj⟩ := mem_strideIdx.mp hp
  obtain ⟨j2, _, hj2⟩ := mem_strideIdx.mp hp2
  apply hne
  have h1 : p % Nw = i := by
    rw [← hj, Nat.add_mul_mod_self_right, Nat.mod_eq_of_lt hi]
  have h2 : p % Nw = i2 := by
    rw [← hj2, Nat.add_mul_mod_self_right, Nat.mod_eq_of_lt hi2]
  omega

lemma caffe_scal_mem {M : ℕ} {alpha : ℝ} {ptr inc p : ℕ} (x : ℕ → ℝ)
    (hp : p ∈ strideIdx ptr inc M) :
    caffe_scal M alpha ptr inc x p = alpha * x p := by
  simp [caffe_scal, hp]

lemma caffe_scal_not_mem {M : ℕ} {alpha : ℝ} {ptr inc p : ℕ} (x : ℕ → ℝ)
    (hp : p ∉ strideIdx ptr inc M) :
    caffe_scal M alpha ptr inc x p = x p := by
  simp [caffe_scal, hp]

lemma norm2_congr {M ptr inc : ℕ} {x y : ℕ → ℝ}
    (h : ∀ j, j < M → x (ptr + j * inc) = y (ptr + j * inc)) :
    caffe_cpu_norm2 M ptr inc x = caffe_cpu_norm2 M ptr inc y := by
  unfold caffe_cpu_norm2
  congr 1
  refine Finset.sum_congr rfl (fun j hj => ?_)
  rw [h j (Finset.mem_range.mp hj)]

lemma norm2_scaled {M ptr inc : ℕ} {c : ℝ} {x y : ℕ → ℝ}
    (h : ∀ j, j < M → y (ptr + j * inc) = c * x (ptr + j * inc)) :
    caffe_cpu_norm2 M ptr inc y = |c| * caffe_cpu_norm2 M ptr inc x := by
  unfold caffe_cpu_norm2
  rw [show (∑ j in Finset.range M, y (ptr + j * inc) ^ 2)
      = c ^ 2 * ∑ j in Finset.range M, x (ptr + j * inc) ^ 2 by
    rw [Finset.mul_sum]
    refine Finset.sum_congr rfl (fun j hj => ?_)
    rw [h j (Finset.mem_range.mp hj)]
    ring]
  rw [Real.sqrt_mul (sq_nonneg c), Real.sqrt_sq_eq_abs]

lemma norm2_nonneg (M ptr inc : ℕ) (x : ℕ → ℝ) :
    0 ≤ caffe_cpu_norm2 M ptr inc x :=
  Real.sqrt_nonneg _

/- ------------------------------------------------------------------ -/
/- Loop analysis for normalize_weights(mnorm).                         -/
/- ------------------------------------------------------------------ -/

lemma normStepA_not_mem {mn : ℝ} {Mh Nw ptr p : ℕ} (w : ℕ → ℝ)
    (hp : p ∉ strideIdx ptr Nw Mh) :
    normStepA mn Mh Nw ptr w p = w p := by
  unfold normStepA
  split
  · exact caffe_scal_not_mem w hp
  · rfl

lemma normStepA_mem {mn : ℝ} {Mh Nw ptr p : ℕ} (w : ℕ → ℝ)
    (hp : p ∈ strideIdx ptr Nw Mh) :
    normStepA mn Mh Nw ptr w p =
      if mn < caffe_cpu_norm2 Mh ptr Nw w then
        (mn / (caffe_cpu_norm2 Mh ptr Nw w + epsND)) * w p
      else w p := by
  unfold normStepA
  split
  · rw [caffe_scal_mem w hp]
  · rfl

lemma normStepA_congr {mn : ℝ} {Mh Nw ptr : ℕ} {w w2 : ℕ → ℝ}
    (h : ∀ j, j < Mh → w (ptr + j * Nw) = w2 (ptr + j * Nw)) (p : ℕ)
    (hp : p ∈ strideIdx ptr Nw Mh) :
    normStepA mn Mh Nw ptr w p = normStepA mn Mh Nw ptr w2 p := by
  have hn : caffe_cpu_norm2 Mh ptr Nw w = caffe_cpu_norm2 Mh ptr Nw w2 :=
    norm2_congr h
  have hwp : w p = w2 p := by
    obtain ⟨j, hj, hje⟩ := mem_strideIdx.mp hp
    rw [← hje]
    exact h j hj
  rw [normStepA_mem w hp, normStepA_mem w2 hp, hn, hwp]

lemma normLoopA_not_mem {mn : ℝ} {Mh Nw : ℕ} :
    ∀ (n s : ℕ) (w : ℕ → ℝ) (p : ℕ),
      (∀ i, i < n → p ∉ strideIdx (s + i) Nw Mh) →
      normLoopA mn Mh Nw 1 n s w p = w p := by
  intro n
  induction n with
  | zero => intro s w p _; rfl
  | succ n ih =>
    intro s w p h
    show normLoopA mn Mh Nw 1 n (s + 1) (normStepA mn Mh Nw s w) p = w p
    rw [ih (s + 1) _ p (fun i hi => by
      have h2 := h (i + 1) (by omega)
      have he : s + (i + 1) = s + 1 + i := by omega
      rwa [he] at h2)]
    exact normStepA_not_mem w (by simpa using h 0 (by omega))

lemma normLoopA_group {mn : ℝ} {Mh Nw : ℕ} :
    ∀ (n s : ℕ) (w : ℕ → ℝ) (i p : ℕ), i < n → s + n ≤ Nw →
      p ∈ strideIdx (s + i) Nw Mh →
      normLoopA mn Mh Nw 1 n s w p = normStepA mn Mh Nw (s + i) w p := by
  intro n
  induction n with
  | zero => intro s w i p hi _ _; omega
  | succ n ih =>
    intro s w i p hi hs hp
    have hsi : s + i < Nw := by omega
    have hs0 : s < Nw := by omega
    show normLoopA mn Mh Nw 1 n (s + 1) (normStepA mn Mh Nw s w) p = _
    cases i with
    | zero =>
      have hp0 : p ∈ strideIdx s Nw Mh := by simpa using hp
      rw [normLoopA_not_mem n (s + 1) _ p (fun i2 hi2 =>
        strideIdx_disjoint hs0 (by omega) (by omega) hp0)]
      simp
    | succ i2 =>
      have heq : s + (i2 + 1) = s + 1 + i2 := by omega
      have hp2 : p ∈ strideIdx (s + 1 + i2) Nw Mh := by rwa [heq] at hp
      rw [ih (s + 1) (normStepA mn Mh Nw s w) i2 p (by omega) (by omega) hp2]
      rw [← heq] at hp2 ⊢
      exact normStepA_congr (fun j hj =>
        normStepA_not_mem w (strideIdx_disjoint (by omega) hs0 (by omega)
          (self_mem_strideIdx hj))) p hp2

lemma epsND_pos : 0 < epsND := by norm_num [epsND]

/-- The weight data after normalize_weights(mnorm), at every index of
column i (the indices i, i + N, i + 2N, ...), equals the single
max-norm step applied to column i of the original data. -/
lemma normalizeA_data_col (b : Blob) (mn : ℝ) (i : ℕ) (hi : i < normN b) :
    ∀ p ∈ strideIdx i (normN b) (normM b),
      normalizeA_data mn b p = normStepA mn (normM b) (normN b) i b.data p := by
  intro p hp
  unfold normalizeA_data
  rw [normOff_eq_one]
  have h := @normLoopA_group mn (normM b) (normN b) (normN b) 0 b.data i p
    hi (le_of_eq (Nat.zero_add _)) (by simpa using hp)
  simpa using h

/- ------------------------------------------------------------------ -/
/- Claim C3: normalize_weights(mnorm), per-column behaviour.           -/
/- ------------------------------------------------------------------ -/

/-- C3 (amended): after normalize_weights(mnorm), writing nrm for the
Euclidean norm of weight column i (elements i, i + N, ..., over M = the
blob height), a column with nrm > mnorm is rescaled in place by exactly
mnorm / (nrm + 1e-7), a column with nrm ≤ mnorm is left bitwise
unchanged, and — provided mnorm ≥ 0 — every column ends with norm at
most mnorm + 1e-7. -/
theorem normalizeA_maxnorm_columns (L : InnerProductLayer) (mn : ℝ)
    (hw : 0 < L.blobs.length) (i : ℕ) (hi : i < normN (L.blobAt 0)) :
    (((normalizeA_update L mn).blobAt 0).data
        = normalizeA_data mn (L.blobAt 0))
    ∧ (mn < caffe_cpu_norm2 (normM (L.blobAt 0)) i (normN (L.blobAt 0))
          (L.blobAt 0).data →
        ∀ j, j < normM (L.blobAt 0) →
          normalizeA_data mn (L.blobAt 0) (i + j * normN (L.blobAt 0))
            = (mn / (caffe_cpu_norm2 (normM (L.blobAt 0)) i
                  (normN (L.blobAt 0)) (L.blobAt 0).data + epsND))
                * (L.blobAt 0).data (i + j * normN (L.blobAt 0)))
    ∧ (¬ mn < caffe_cpu_norm2 (normM (L.blobAt 0)) i (normN (L.blobAt 0))
          (L.blobAt 0).data →
        ∀ j, j < normM (L.blobAt 0) →
          normalizeA_data mn (L.blobAt 0) (i + j * normN (L.blobAt 0))
            = (L.blobAt 0).data (i + j * normN (L.blobAt 0)))
    ∧ (0 ≤ mn →
        caffe_cpu_norm2 (normM (L.blobAt 0)) i (normN (L.blobAt 0))
          (normalizeA_data mn (L.blobAt 0)) ≤ mn + epsND) := by
  have hcol := normalizeA_data_col (L.blobAt 0) mn i hi
  have hnn := norm2_nonneg (normM (L.blobAt 0)) i (normN (L.blobAt 0))
    (L.blobAt 0).data
  refine ⟨?_, ?_, ?_, ?_⟩
  · simp [normalizeA_update, InnerProductLayer.blobAt,
      List.getD_eq_getElem?_getD, List.getElem?_set_self hw]
  · intro hlt j hj
    rw [hcol _ (self_mem_strideIdx hj),
      normStepA_mem (L.blobAt 0).data (self_mem_strideIdx hj), if_pos hlt]
  · intro hge j hj
    rw [hcol _ (self_mem_strideIdx hj),
      normStepA_mem (L.blobAt 0).data (self_mem_strideIdx hj), if_neg hge]
  · intro h0
    have hpos : 0 < caffe_cpu_norm2 (normM (L.blobAt 0)) i
        (normN (L.blobAt 0)) (L.blobAt 0).data + epsND := by
      linarith [epsND_pos]
    by_cases hlt : mn < caffe_cpu_norm2 (normM (L.blobAt 0)) i
        (normN (L.blobAt 0)) (L.blobAt 0).data
    · have hnew : caffe_cpu_norm2 (normM (L.blobAt 0)) i
          (normN (L.blobAt 0)) (normalizeA_data mn (L.blobAt 0))
          = |mn / (caffe_cpu_norm2 (normM (L.blobAt 0)) i
                (normN (L.blobAt 0)) (L.blobAt 0).data + epsND)|
            * caffe_cpu_norm2 (normM (L.blobAt 0)) i (normN (L.blobAt 0))
                (L.blobAt 0).data := by
        refine norm2_scaled (fun j hj => ?_)
        rw [hcol _ (self_mem_strideIdx hj),
          normStepA_mem (L.blobAt 0).data (self_mem_strideIdx hj),
          if_pos hlt]
      rw [hnew, abs_of_nonneg (div_nonneg h0 (le_of_lt hpos)),
        div_mul_eq_mul_div]
      have h1 : mn * caffe_cpu_norm2 (normM (L.blobAt 0)) i
            (normN (L.blobAt 0)) (L.blobAt 0).data
          / (caffe_cpu_norm2 (normM (L.blobAt 0)) i (normN (L.blobAt 0))
              (L.blobAt 0).data + epsND) ≤ mn := by
        rw [div_le_iff₀ hpos]
        nlinarith [epsND_pos]
      linarith [epsND_pos]
    · have hnew : caffe_cpu_norm2 (normM (L.blobAt 0)) i
          (normN (L.blobAt 0)) (normalizeA_data mn (L.blobAt 0))
          = caffe_cpu_norm2 (normM (L.blobAt 0)) i (normN (L.blobAt 0))
              (L.blobAt 0).data := by
        refine norm2_congr (fun j hj => ?_)
        rw [hcol _ (self_mem_strideIdx hj),
          normStepA_mem (L.blobAt 0).data (self_mem_strideIdx hj),
          if_neg hlt]
      rw [hnew]
      push_neg at hlt
      linarith [epsND_pos]

/-- Witness for C3 at the concrete layer cIPbw (single 1x1 weight column
with value 5) and mnorm = 1. -/
theorem normalizeA_maxnorm_columns_witness :
    (0 < cIPbw.blobs.length ∧ 0 < normN (cIPbw.blobAt 0))
    ∧ ((((normalizeA_update cIPbw 1).blobAt 0).data
          = normalizeA_data 1 (cIPbw.blobAt 0))
      ∧ ((1 : ℝ) < caffe_cpu_norm2 (normM (cIPbw.blobAt 0)) 0
            (normN (cIPbw.blobAt 0)) (cIPbw.blobAt 0).data →
          ∀ j, j < normM (cIPbw.blobAt 0) →
            normalizeA_data 1 (cIPbw.blobAt 0) (0 + j * normN (cIPbw.blobAt 0))
              = ((1 : ℝ) / (caffe_cpu_norm2 (normM (cIPbw.blobAt 0)) 0
                    (normN (cIPbw.blobAt 0)) (cIPbw.blobAt 0).data + epsND))
                  * (cIPbw.blobAt 0).data (0 + j * normN (cIPbw.blobAt 0)))
      ∧ (¬ (1 : ℝ) < caffe_cpu_norm2 (normM (cIPbw.blobAt 0)) 0
            (normN (cIPbw.blobAt 0)) (cIPbw.blobAt 0).data →
          ∀ j, j < normM (cIPbw.blobAt 0) →
            normalizeA_data 1 (cIPbw.blobAt 0) (0 + j * normN (cIPbw.blobAt 0))
              = (cIPbw.blobAt 0).data (0 + j * normN (cIPbw.blobAt 0)))
      ∧ ((0 : ℝ) ≤ 1 →
          caffe_cpu_norm2 (normM (cIPbw.blobAt 0)) 0 (normN (cIPbw.blobAt 0))
            (normalizeA_data 1 (cIPbw.blobAt 0)) ≤ 1 + epsND)) :=
  ⟨⟨by decide, by decide⟩,
    normalizeA_maxnorm_columns cIPbw 1 (by decide) 0 (by decide)⟩

/-- The weight blob of a layer with one output unit and one input
feature, single weight 3, for the C3 counterexample. -/
def cexBlobA : Blob :=
  { num := 1, channels := 1, height := 1, width := 1
    data := fun _ => 3, diff := fun _ => 0 }

lemma cexBlobA_nrm :
    caffe_cpu_norm2 (normM cexBlobA) 0 (normN cexBlobA) cexBlobA.data = 3 := by
  unfold caffe_cpu_norm2
  rw [show (∑ j in Finset.range (normM cexBlobA),
      cexBlobA.data (0 + j * normN cexBlobA) ^ 2) = (3 : ℝ) ^ 2 by
    simp [cexBlobA, normM, Finset.sum_range_one]]
  exact Real.sqrt_sq (by norm_num)

/-- Counterexample to C3 as stated: with max_norm = -1 (the claim puts
no condition on max_norm) and a single weight column holding the value
3, the post-call column norm is 3 / (3 + 1e-7), which is not at most
max_norm + 1e-7. -/
theorem normalizeA_maxnorm_counterexample :
    ¬ (caffe_cpu_norm2 (normM cexBlobA) 0 (normN cexBlobA)
        (normalizeA_data (-1) cexBlobA) ≤ -1 + epsND) := by
  have hp : (0 : ℕ) ∈ strideIdx 0 (normN cexBlobA) (normM cexBlobA) :=
    mem_strideIdx.mpr ⟨0, by norm_num [normM, cexBlobA], by simp⟩
  have hlt : (-1 : ℝ) < caffe_cpu_norm2 (normM cexBlobA) 0 (normN cexBlobA)
      cexBlobA.data := by rw [cexBlobA_nrm]; norm_num
  have hnew : ∀ j, j < normM cexBlobA →
      normalizeA_data (-1) cexBlobA (0 + j * normN cexBlobA)
        = (-1 / (3 + epsND)) * cexBlobA.data (0 + j * normN cexBlobA) := by
    intro j hj
    rw [normalizeA_data_col cexBlobA (-1) 0 (by norm_num [normN, cexBlobA])
        _ (self_mem_strideIdx hj),
      normStepA_mem cexBlobA.data (self_mem_strideIdx hj), if_pos hlt,
      cexBlobA_nrm]
  have hnn : caffe_cpu_norm2 (normM cexBlobA) 0 (normN cexBlobA)
      (normalizeA_data (-1) cexBlobA)
      = |(-1 / (3 + epsND))| * caffe_cpu_norm2 (normM cexBlobA) 0
          (normN cexBlobA) cexBlobA.data :=
    norm2_scaled hnew
  rw [hnn, cexBlobA_nrm]
  have habs : |(-1 / (3 + epsND))| = 1 / (3 + epsND) := by
    rw [abs_div]
    norm_num [abs_of_pos, epsND]
  rw [habs]
  norm_num [epsND]

/- ------------------------------------------------------------------ -/
/- Loop analysis for normalize_weights(min, max, target).              -/
/- ------------------------------------------------------------------ -/

lemma normStepB_not_mem {mini maxi tgt : ℝ} {Mh Nw ptr p : ℕ} (w : ℕ → ℝ)
    (hp : p ∉ strideIdx ptr Nw Mh) :
    normStepB mini maxi tgt Mh Nw ptr w p = w p := by
  unfold normStepB
  split
  · exact caffe_scal_not_mem w hp
  · rfl

lemma normStepB_mem {mini maxi tgt : ℝ} {Mh Nw ptr p : ℕ} (w : ℕ → ℝ)
    (hp : p ∈ strideIdx ptr Nw Mh) :
    normStepB mini maxi tgt Mh Nw ptr w p =
      if maxi < caffe_cpu_norm2 Mh ptr Nw w
          ∨ caffe_cpu_norm2 Mh ptr Nw w < mini then
        (tgt / (caffe_cpu_norm2 Mh ptr Nw w + epsND)) * w p
      else w p := by
  unfold normStepB
  split
  · rw [caffe_scal_mem w hp]
  · rfl

lemma normStepB_congr {mini maxi tgt : ℝ} {Mh Nw ptr : ℕ} {w w2 : ℕ → ℝ}
    (h : ∀ j, j < Mh → w (ptr + j * Nw) = w2 (ptr + j * Nw)) (p : ℕ)
    (hp : p ∈ strideIdx ptr Nw Mh) :
    normStepB mini maxi tgt Mh Nw ptr w p
      = normStepB mini maxi tgt Mh Nw ptr w2 p := by
  have hn : caffe_cpu_norm2 Mh ptr Nw w = caffe_cpu_norm2 Mh ptr Nw w2 :=
    norm2_congr h
  have hwp : w p = w2 p := by
    obtain ⟨j, hj, hje⟩ := mem_strideIdx.mp hp
    rw [← hje]
    exact h j hj
  rw [normStepB_mem w hp, normStepB_mem w2 hp, hn, hwp]

lemma normLoopB_not_mem {mini maxi tgt : ℝ} {Mh Nw : ℕ} :
    ∀ (n s : ℕ) (w : ℕ → ℝ) (p : ℕ),
      (∀ i, i < n → p ∉ strideIdx (s + i) Nw Mh) →
      normLoopB mini maxi tgt Mh Nw 1 n s w p = w p := by
  intro n
  induction n with
  | zero => intro s w p _; rfl
  | succ n ih =>
    intro s w p h
    show normLoopB mini maxi tgt Mh Nw 1 n (s + 1)
      (normStepB mini maxi tgt Mh Nw s w) p = w p
    rw [ih (s + 1) _ p (fun i hi => by
      have h2 := h (i + 1) (by omega)
      have he : s + (i + 1) = s + 1 + i := by omega
      rwa [he] at h2)]
    exact normStepB_not_mem w (by simpa using h 0 (by omega))

lemma normLoopB_group {mini maxi tgt : ℝ} {Mh Nw : ℕ} :
    ∀ (n s : ℕ) (w : ℕ → ℝ) (i p : ℕ), i < n → s + n ≤ Nw →
      p ∈ strideIdx (s + i) Nw Mh →
      normLoopB mini maxi tgt Mh Nw 1 n s w p
        = normStepB mini maxi tgt Mh Nw (s + i) w p := by
  intro n
  induction n with
  | zero => intro s w i p hi _ _; omega
  | succ n ih =>
    intro s w i p hi hs hp
    have hsi : s + i < Nw := by omega
    have hs0 : s < Nw := by omega
    show normLoopB mini maxi tgt Mh Nw 1 n (s + 1)
      (normStepB mini maxi tgt Mh Nw s w) p = _
    cases i with
    | zero =>
      have hp0 : p ∈ strideIdx s Nw Mh := by simpa using hp
      rw [normLoopB_not_mem n (s + 1) _ p (fun i2 hi2 =>
        strideIdx_disjoint hs0 (by omega) (by omega) hp0)]
      simp
    | succ i2 =>
      have heq : s + (i2 + 1) = s + 1 + i2 := by omega
      have hp2 : p ∈ strideIdx (s + 1 + i2) Nw Mh := by rwa [heq] at hp
      rw [ih (s + 1) (normStepB mini maxi tgt Mh Nw s w) i2 p (by omega)
        (by omega) hp2]
      rw [← heq] at hp2 ⊢
      exact normStepB_congr (fun j hj =>
        normStepB_not_mem w (strideIdx_disjoint (by omega) hs0 (by omega)
          (self_mem_strideIdx hj))) p hp2

/-- The weight data after normalize_weights(min, max, target), at every
index of column i, equals the single norm-band step applied to column i
of the original data. -/
lemma normalizeB_data_col (b : Blob) (mini maxi tgt : ℝ) (i : ℕ)
    (hi : i < normN b) :
    ∀ p ∈ strideIdx i (normN b) (normM b),
      normalizeB_data mini maxi tgt b p
        = normStepB mini maxi tgt (normM b) (normN b) i b.data p := by
  intro p hp
  unfold normalizeB_data
  rw [normOff_eq_one]
  have h := @normLoopB_group mini maxi tgt (normM b) (normN b) (normN b) 0
    b.data i p hi (le_of_eq (Nat.zero_add _)) (by simpa using hp)
  simpa using h

/- ------------------------------------------------------------------ -/
/- Claim C4: normalize_weights(min, max, target), per-column behaviour. -/
/- ------------------------------------------------------------------ -/

/-- C4 (amended): after normalize_weights(min_norm, max_norm,
target_norm), a column whose norm nrm lies outside the closed interval
[min_norm, max_norm] is rescaled in place by exactly
target_norm / (nrm + 1e-7) — so that (for target_norm ≥ 0) its new norm
is exactly (target_norm / (nrm + 1e-7)) * nrm, not necessarily within
1e-7 of target_norm — and a column whose norm lies inside the closed
interval is left unchanged. -/
theorem normalizeB_band_columns (L : InnerProductLayer)
    (mini maxi tgt : ℝ) (hw : 0 < L.blobs.length) (i : ℕ)
    (hi : i < normN (L.blobAt 0)) :
    (((normalizeB_update L mini maxi tgt).blobAt 0).data
        = normalizeB_data mini maxi tgt (L.blobAt 0))
    ∧ ((maxi < caffe_cpu_norm2 (normM (L.blobAt 0)) i (normN (L.blobAt 0))
            (L.blobAt 0).data
        ∨ caffe_cpu_norm2 (normM (L.blobAt 0)) i (normN (L.blobAt 0))
            (L.blobAt 0).data < mini) →
        ∀ j, j < normM (L.blobAt 0) →
          normalizeB_data mini maxi tgt (L.blobAt 0)
              (i + j * normN (L.blobAt 0))
            = (tgt / (caffe_cpu_norm2 (normM (L.blobAt 0)) i
                  (normN (L.blobAt 0)) (L.blobAt 0).data + epsND))
                * (L.blobAt 0).data (i + j * normN (L.blobAt 0)))
    ∧ (¬ (maxi < caffe_cpu_norm2 (normM (L.blobAt 0)) i (normN (L.blobAt 0))
            (L.blobAt 0).data
        ∨ caffe_cpu_norm2 (normM (L.blobAt 0)) i (normN (L.blobAt 0))
            (L.blobAt 0).data < mini) →
        ∀ j, j < normM (L.blobAt 0) →
          normalizeB_data mini maxi tgt (L.blobAt 0)
              (i + j * normN (L.blobAt 0))
            = (L.blobAt 0).data (i + j * normN (L.blobAt 0)))
    ∧ (0 ≤ tgt →
        (maxi < caffe_cpu_norm2 (normM (L.blobAt 0)) i (normN (L.blobAt 0))
            (L.blobAt 0).data
        ∨ caffe_cpu_norm2 (normM (L.blobAt 0)) i (normN (L.blobAt 0))
            (L.blobAt 0).data < mini) →
        caffe_cpu_norm2 (normM (L.blobAt 0)) i (normN (L.blobAt 0))
            (normalizeB_data mini maxi tgt (L.blobAt 0))
          = (tgt / (caffe_cpu_norm2 (normM (L.blobAt 0)) i
                (normN (L.blobAt 0)) (L.blobAt 0).data + epsND))
              * caffe_cpu_norm2 (normM (L.blobAt 0)) i (normN (L.blobAt 0))
                  (L.blobAt 0).data) := by
  have hcol := normalizeB_data_col (L.blobAt 0) mini maxi tgt i hi
  have hnn := norm2_nonneg (normM (L.blobAt 0)) i (normN (L.blobAt 0))
    (L.blobAt 0).data
  refine ⟨?_, ?_, ?_, ?_⟩
  · simp [normalizeB_update, InnerProductLayer.blobAt,
      List.getD_eq_getElem?_getD, List.getElem?_set_self hw]
  · intro hout j hj
    rw [hcol _ (self_mem_strideIdx hj),
      normStepB_mem (L.blobAt 0).data (self_mem_strideIdx hj), if_pos hout]
  · intro hin j hj
    rw [hcol _ (self_mem_strideIdx hj),
      normStepB_mem (L.blobAt 0).data (self_mem_strideIdx hj), if_neg hin]
  · intro h0 hout
    have hpos : 0 < caffe_cpu_norm2 (normM (L.blobAt 0)) i
        (normN (L.blobAt 0)) (L.blobAt 0).data + epsND := by
      linarith [epsND_pos]
    have hnew : caffe_cpu_norm2 (normM (L.blobAt 0)) i (normN (L.blobAt 0))
        (normalizeB_data mini maxi tgt (L.blobAt 0))
        = |tgt / (caffe_cpu_norm2 (normM (L.blobAt 0)) i
              (normN (L.blobAt 0)) (L.blobAt 0).data + epsND)|
          * caffe_cpu_norm2 (normM (L.blobAt 0)) i (normN (L.blobAt 0))
              (L.blobAt 0).data := by
      refine norm2_scaled (fun j hj => ?_)
      rw [hcol _ (self_mem_strideIdx hj),
        normStepB_mem (L.blobAt 0).data (self_mem_strideIdx hj),
        if_pos hout]
    rw [hnew, abs_of_nonneg (div_nonneg h0 (le_of_lt hpos))]

/-- Witness for C4 at the concrete layer cIPbw (single 1x1 weight column
with value 5) and the band [0, 10] with target 1. -/
theorem normalizeB_band_columns_witness :
    (0 < cIPbw.blobs.length ∧ 0 < normN (cIPbw.blobAt 0))
    ∧ ((((normalizeB_update cIPbw 0 10 1).blobAt 0).data
          = normalizeB_data 0 10 1 (cIPbw.blobAt 0))
      ∧ (((10 : ℝ) < caffe_cpu_norm2 (normM (cIPbw.blobAt 0)) 0
              (normN (cIPbw.blobAt 0)) (cIPbw.blobAt 0).data
          ∨ caffe_cpu_norm2 (normM (cIPbw.blobAt 0)) 0
              (normN (cIPbw.blobAt 0)) (cIPbw.blobAt 0).data < (0 : ℝ)) →
          ∀ j, j < normM (cIPbw.blobAt 0) →
            normalizeB_data 0 10 1 (cIPbw.blobAt 0)
                (0 + j * normN (cIPbw.blobAt 0))
              = ((1 : ℝ) / (caffe_cpu_norm2 (normM (cIPbw.blobAt 0)) 0
                    (normN (cIPbw.blobAt 0)) (cIPbw.blobAt 0).data + epsND))
                  * (cIPbw.blobAt 0).data (0 + j * normN (cIPbw.blobAt 0)))
      ∧ (¬ ((10 : ℝ) < caffe_cpu_norm2 (normM (cIPbw.blobAt 0)) 0
              (normN (cIPbw.blobAt 0)) (cIPbw.blobAt 0).data
          ∨ caffe_cpu_norm2 (normM (cIPbw.blobAt 0)) 0
              (normN (cIPbw.blobAt 0)) (cIPbw.blobAt 0).data < (0 : ℝ)) →
          ∀ j, j < normM (cIPbw.blobAt 0) →
            normalizeB_data 0 10 1 (cIPbw.blobAt 0)
                (0 + j * normN (cIPbw.blobAt 0))
              = (cIPbw.blobAt 0).data (0 + j * normN (cIPbw.blobAt 0)))
      ∧ ((0 : ℝ) ≤ 1 →
          ((10 : ℝ) < caffe_cpu_norm2 (normM (cIPbw.blobAt 0)) 0
              (normN (cIPbw.blobAt 0)) (cIPbw.blobAt 0).data
          ∨ caffe_cpu_norm2 (normM (cIPbw.blobAt 0)) 0
              (normN (cIPbw.blobAt 0)) (cIPbw.blobAt 0).data < (0 : ℝ)) →
          caffe_cpu_norm2 (normM (cIPbw.blobAt 0)) 0 (normN (cIPbw.blobAt 0))
              (normalizeB_data 0 10 1 (cIPbw.blobAt 0))
            = ((1 : ℝ) / (caffe_cpu_norm2 (normM (cIPbw.blobAt 0)) 0
                  (normN (cIPbw.blobAt 0)) (cIPbw.blobAt 0).data + epsND))
                * caffe_cpu_norm2 (normM (cIPbw.blobAt 0)) 0
                    (normN (cIPbw.blobAt 0)) (cIPbw.blobAt 0).data)) :=
  ⟨⟨by decide, by decide⟩,
    normalizeB_band_columns cIPbw 0 10 1 (by decide) 0 (by decide)⟩

/-- The weight blob of a layer with one output unit and one input
feature, single weight 0, for the C4 counterexample. -/
def cexBlobB : Blob :=
  { num := 1, channels := 1, height := 1, width := 1
    data := fun _ => 0, diff := fun _ => 0 }

lemma cexBlobB_nrm :
    caffe_cpu_norm2 (normM cexBlobB) 0 (normN cexBlobB) cexBlobB.data = 0 := by
  unfold caffe_cpu_norm2
  rw [show (∑ j in Finset.range (normM cexBlobB),
      cexBlobB.data (0 + j * normN cexBlobB) ^ 2) = (0 : ℝ) by
    simp [cexBlobB, normM]]
  exact Real.sqrt_zero

/-- Counterexample to C4 as stated: a zero column with the band [1, 2]
and target 1 is out of band, is "rescaled" by 1 / (0 + 1e-7), but stays
the zero column: its new norm is 0, which is not target_norm within
1e-7. -/
theorem normalizeB_band_counterexample :
    (caffe_cpu_norm2 (normM cexBlobB) 0 (normN cexBlobB) cexBlobB.data
        < (1 : ℝ))
    ∧ ¬ (|caffe_cpu_norm2 (normM cexBlobB) 0 (normN cexBlobB)
          (normalizeB_data 1 2 1 cexBlobB) - 1| ≤ epsND) := by
  have hout : (2 : ℝ) < caffe_cpu_norm2 (normM cexBlobB) 0 (normN cexBlobB)
        cexBlobB.data
      ∨ caffe_cpu_norm2 (normM cexBlobB) 0 (normN cexBlobB)
        cexBlobB.data < (1 : ℝ) :=
    Or.inr (by rw [cexBlobB_nrm]; norm_num)
  have hnew : ∀ j, j < normM cexBlobB →
      normalizeB_data 1 2 1 cexBlobB (0 + j * normN cexBlobB)
        = ((1 : ℝ) / (caffe_cpu_norm2 (normM cexBlobB) 0 (normN cexBlobB)
              cexBlobB.data + epsND))
            * cexBlobB.data (0 + j * normN cexBlobB) := by
    intro j hj
    rw [normalizeB_data_col cexBlobB 1 2 1 0 (by norm_num [normN, cexBlobB])
        _ (self_mem_strideIdx hj),
      normStepB_mem cexBlobB.data (self_mem_strideIdx hj), if_pos hout]
  have hnn : caffe_cpu_norm2 (normM cexBlobB) 0 (normN cexBlobB)
      (normalizeB_data 1 2 1 cexBlobB)
      = |(1 : ℝ) / (caffe_cpu_norm2 (normM cexBlobB) 0 (normN cexBlobB)
            cexBlobB.data + epsND)|
        * caffe_cpu_norm2 (normM cexBlobB) 0 (normN cexBlobB)
            cexBlobB.data :=
    norm2_scaled hnew
  refine ⟨by rw [cexBlobB_nrm]; norm_num, ?_⟩
  rw [hnn, cexBlobB_nrm, mul_zero]
  norm_num [epsND]

/- ------------------------------------------------------------------ -/
/- Claim C5: flat-buffer addressing of both normalize_weights loops.   -/
/- ------------------------------------------------------------------ -/

/-- The weight blob of a layer with two output units (height) and three
input features (width), for the C5 counterexample and witness. -/
def cexBlob5 : Blob :=
  { num := 1, channels := 1, height := 2, width := 3
    data := fun _ => 0, diff := fun _ => 0 }

/-- C5 (amended): both normalize_weights loops read the source locals as
M = height (the number of output units N of the layer, since the weight
blob is allocated (1, 1, N, K)), N = width (the input feature count K)
and off = offset(0,0,0,1) = 1; they walk width-many groups, the loop
pointer starting at the base and advancing by off = 1 per iteration, and
group i consists of the height-many flat indices i + j * width — column
i of the row-major N x K weight matrix; every flat index in no group is
left untouched by both variants. -/
theorem normalize_weights_addressing (b : Blob) (mn mini maxi tgt : ℝ) :
    normOff b = 1
    ∧ normM b = b.height
    ∧ normN b = b.width
    ∧ normalizeA_data mn b
        = normLoopA mn b.height b.width 1 b.width 0 b.data
    ∧ normalizeB_data mini maxi tgt b
        = normLoopB mini maxi tgt b.height b.width 1 b.width 0 b.data
    ∧ (∀ i j, i < b.width → j < b.height →
        i + j * b.width ∈ strideIdx i b.width b.height)
    ∧ (∀ p, (∀ i, i < b.width → p ∉ strideIdx i b.width b.height) →
        normalizeA_data mn b p = b.data p
        ∧ normalizeB_data mini maxi tgt b p = b.data p) := by
  refine ⟨normOff_eq_one b, rfl, rfl, ?_, ?_, ?_, ?_⟩
  · unfold normalizeA_data
    rw [normOff_eq_one]
    rfl
  · unfold normalizeB_data
    rw [normOff_eq_one]
    rfl
  · intro i j _ hj
    exact self_mem_strideIdx hj
  · intro p hp
    constructor
    · unfold normalizeA_data
      rw [normOff_eq_one]
      exact normLoopA_not_mem (normN b) 0 b.data p
        (fun i hi => by simpa using hp i hi)
    · unfold normalizeB_data
      rw [normOff_eq_one]
      exact normLoopB_not_mem (normN b) 0 b.data p
        (fun i hi => by simpa using hp i hi)

/-- Witness for C5 at the concrete 2x3 weight blob: flat index 7 lies
beyond every group and is untouched by both variants. -/
theorem normalize_weights_addressing_witness :
    (∀ i, i < cexBlob5.width →
      (7 : ℕ) ∉ strideIdx i cexBlob5.width cexBlob5.height)
    ∧ (normalizeA_data 1 cexBlob5 7 = cexBlob5.data 7
        ∧ normalizeB_data 1 2 1 cexBlob5 7 = cexBlob5.data 7) :=
  ⟨by decide,
    (normalize_weights_addressing cexBlob5 1 1 2 1).2.2.2.2.2.2 7 (by decide)⟩

/-- Counterexample to C5 as stated: for the 2x3 weight blob of a layer
with 2 output units and 3 input features, the claim predicts height-many
(2) groups of width-many (3) elements; the code walks normN = width = 3
groups of normM = height = 2 elements. -/
theorem normalize_weights_addressing_counterexample :
    ¬ (normN cexBlob5 = cexBlob5.height ∧ normM cexBlob5 = cexBlob5.width) := by
  intro h
  have h1 : (3 : ℕ) = 2 := h.1
  omega

end caffe
